import Mathlib

/-!
Verification development for the `gbc-terminal` repository (`term_emu/src/main.rs`),
a terminal front-end for a Game Boy Color emulator core.  The definitions below are
a shallow embedding of the source: the keyboard-state-diffing input engine, the
half-block compositor with color-change elision, the frame pump, the pacer and the
main cycle loop.  The emulator core (`gbc` crate) and the terminal backend
(`crossterm`) are external collaborators; where the embedding needs them they are
modelled from the specification (pixel buffers as functions, terminal commands as an
instruction datatype, the core's frame advance as an abstract state function).
-/

namespace TermEmu

/-- `FRAMES_PER_CYCLE` from `main.rs`: the number of emulated frames advanced per
main-loop cycle. -/
def FRAMES_PER_CYCLE : Nat := 2

/-! ## Input model (`char_to_joypad_input` and the diff engine in `cli`) -/

/-- `JoypadInput` from the external `gbc` crate: the eight Game Boy buttons. -/
inductive JoypadInput where
  | b
  | a
  | start
  | select
  | up
  | down
  | left
  | right
deriving DecidableEq

/-- `JoypadEvent` from the external `gbc` crate: a discrete button transition. -/
inductive JoypadEvent where
  | up (i : JoypadInput)
  | down (i : JoypadInput)
deriving DecidableEq

/-- `char_to_joypad_input` from `main.rs` (the `Option` around the argument is
always `Some` at every call site; the code unwraps it, so the embedding takes the
character directly). -/
def char_to_joypad_input (keycode : Char) : Option JoypadInput :=
  if keycode = 'n' then some JoypadInput.b
  else if keycode = 'm' then some JoypadInput.a
  else if keycode = 'j' then some JoypadInput.start
  else if keycode = 'k' then some JoypadInput.select
  else if keycode = 'w' then some JoypadInput.up
  else if keycode = 's' then some JoypadInput.down
  else if keycode = 'a' then some JoypadInput.left
  else if keycode = 'd' then some JoypadInput.right
  else none

/-- The unique key code mapped to a given button (inverse of
`char_to_joypad_input` on its domain). -/
def buttonChar : JoypadInput → Char
  | JoypadInput.b => 'n'
  | JoypadInput.a => 'm'
  | JoypadInput.start => 'j'
  | JoypadInput.select => 'k'
  | JoypadInput.up => 'w'
  | JoypadInput.down => 's'
  | JoypadInput.left => 'a'
  | JoypadInput.right => 'd'

/-- The `Up`-event loop of the diff engine in `cli` (`main.rs` lines 189-195):
for every key code held previously but not now, map it and push `JoypadEvent::Up`. -/
def upEvents (prev cur : List Char) : List JoypadEvent :=
  match prev with
  | [] => []
  | keycode :: rest =>
    if keycode ∈ cur then upEvents rest cur
    else
      match char_to_joypad_input keycode with
      | some joypad_input => JoypadEvent.up joypad_input :: upEvents rest cur
      | none => upEvents rest cur

/-- The `Down`-event loop of the diff engine in `cli` (`main.rs` lines 198-204):
for every key code held now but not previously, map it and push `JoypadEvent::Down`. -/
def downEvents (prev cur : List Char) : List JoypadEvent :=
  match cur with
  | [] => []
  | keycode :: rest =>
    if keycode ∈ prev then downEvents prev rest
    else
      match char_to_joypad_input keycode with
      | some joypad_input => JoypadEvent.down joypad_input :: downEvents prev rest
      | none => downEvents prev rest

/-- One cycle's event list produced by the diff engine: `joypad_events` is empty at
the start of each cycle (it is cleared inside `handle_frame`), the `Up` loop runs
first, then the `Down` loop. -/
def diffEvents (prev cur : List Char) : List JoypadEvent :=
  upEvents prev cur ++ downEvents prev cur

/-- Whether an event (of either kind) concerns button `i`. -/
def concerns (i : JoypadInput) : JoypadEvent → Bool
  | JoypadEvent.up j => j == i
  | JoypadEvent.down j => j == i

/-- Button `i` is held in pressed-set `s`: some observed key code maps to it. -/
def heldBy (s : List Char) (i : JoypadInput) : Prop :=
  ∃ k ∈ s, char_to_joypad_input k = some i

instance (s : List Char) (i : JoypadInput) : Decidable (heldBy s i) := by
  unfold heldBy; infer_instance

/-- An event is a `Released`/`Up` event. -/
def isUpEvent : JoypadEvent → Bool
  | JoypadEvent.up _ => true
  | JoypadEvent.down _ => false

/-- An event is a `Pressed`/`Down` event. -/
def isDownEvent : JoypadEvent → Bool
  | JoypadEvent.up _ => false
  | JoypadEvent.down _ => true

/-! ## Compositor (`create_frame` in `main.rs`) -/

/-- Modelled from the spec: a `Pixel` of the external `gbc` crate's `FrameBuffer`
is a triple of 8-bit color channels (red, green, blue). -/
structure Pixel where
  red : Nat
  green : Nat
  blue : Nat
deriving DecidableEq

/-- `crossterm`'s `Color::Rgb` value as used by the compositor. -/
structure Color where
  r : Nat
  g : Nat
  b : Nat
deriving DecidableEq

/-- The initial color `Color::Rgb{r:0, g:0, b:0}` of both elision registers. -/
def blackColor : Color := ⟨0, 0, 0⟩

/-- Modelled from the spec: the external core's `FrameBuffer` is a read-only 2D
pixel grid accessed through `read(x, y)`; the display dimensions `LCD_WIDTH` and
`LCD_HEIGHT` (constants of the external crate) appear as parameters `W` and `H`
below. -/
structure FrameBuffer where
  read : Nat → Nat → Pixel

/-- The terminal instructions queued by `create_frame`: `style::SetBackgroundColor`,
`style::SetForegroundColor`, `style::Print` and `cursor::MoveToNextLine`. -/
inductive Instr where
  | setBackgroundColor (c : Color)
  | setForegroundColor (c : Color)
  | print (s : String)
  | moveToNextLine (n : Nat)
deriving DecidableEq

/-- Conversion from a pixel's channel values to the queued `Color::Rgb`. -/
def pixColor (p : Pixel) : Color := ⟨p.red, p.green, p.blue⟩

/-- The inner `for x in 0..LCD_WIDTH` loop body of `create_frame`, over an explicit
list of column indices: read the top pixel `(x, y*2)` as background and the bottom
pixel `(x, y*2+1)` as foreground, queue a color change only when the color differs
from the last queued one of that role, then queue the half-block glyph.  Returns
the queued instructions together with the final `prev_bg_color`/`prev_fg_color`
registers. -/
def compositeCells (fb : FrameBuffer) (y : Nat) :
    List Nat → Color → Color → List Instr × Color × Color
  | [], prev_bg, prev_fg => ([], prev_bg, prev_fg)
  | x :: xs, prev_bg, prev_fg =>
    let bg := pixColor (fb.read x (y * 2))
    let fg := pixColor (fb.read x (y * 2 + 1))
    let bgIs : List Instr := if bg = prev_bg then [] else [Instr.setBackgroundColor bg]
    let new_bg := if bg = prev_bg then prev_bg else bg
    let fgIs : List Instr := if fg = prev_fg then [] else [Instr.setForegroundColor fg]
    let new_fg := if fg = prev_fg then prev_fg else fg
    let rest := compositeCells fb y xs new_bg new_fg
    (bgIs ++ fgIs ++ Instr.print "▄" :: rest.1, rest.2)

/-- The outer `for y in 0..LCD_HEIGHT/2` loop of `create_frame`: one cell row per
pixel pair, followed by `cursor::MoveToNextLine(1)`; the elision registers are
threaded across rows. -/
def compositeRows (fb : FrameBuffer) (W : Nat) :
    List Nat → Color → Color → List Instr × Color × Color
  | [], prev_bg, prev_fg => ([], prev_bg, prev_fg)
  | y :: ys, prev_bg, prev_fg =>
    let row := compositeCells fb y (List.range W) prev_bg prev_fg
    let rest := compositeRows fb W ys row.2.1 row.2.2
    (row.1 ++ Instr.moveToNextLine 1 :: rest.1, rest.2)

/-- `create_frame` from `main.rs`: both elision registers start black, the two
black color instructions are queued unconditionally, then the rows are composed. -/
def create_frame (W H : Nat) (fb : FrameBuffer) : List Instr :=
  Instr.setBackgroundColor blackColor :: Instr.setForegroundColor blackColor ::
    (compositeRows fb W (List.range (H / 2)) blackColor blackColor).1

/-- Modelled from the spec (for comparison with `create_frame`): an elision-free
compositor cell loop that queues both color instructions for every cell. -/
def compositeCellsPlain (fb : FrameBuffer) (y : Nat) : List Nat → List Instr
  | [] => []
  | x :: xs =>
    Instr.setBackgroundColor (pixColor (fb.read x (y * 2))) ::
      Instr.setForegroundColor (pixColor (fb.read x (y * 2 + 1))) ::
      Instr.print "▄" :: compositeCellsPlain fb y xs

/-- Modelled from the spec (for comparison with `create_frame`): the elision-free
row loop. -/
def compositeRowsPlain (fb : FrameBuffer) (W : Nat) : List Nat → List Instr
  | [] => []
  | y :: ys =>
    compositeCellsPlain fb y (List.range W) ++
      Instr.moveToNextLine 1 :: compositeRowsPlain fb W ys

/-- Modelled from the spec (for comparison with `create_frame`): the whole
compositor with color-change elision disabled. -/
def create_frame_noelide (W H : Nat) (fb : FrameBuffer) : List Instr :=
  Instr.setBackgroundColor blackColor :: Instr.setForegroundColor blackColor ::
    compositeRowsPlain fb W (List.range (H / 2))

/-- Terminal-side semantics of an instruction stream: running background and
foreground colors are updated by the color instructions, every `print` renders a
cell in the current color pair, and `moveToNextLine` closes the current cell row.
The result is the list of cell rows, the last entry being the still-open row. -/
def splitCells : List Instr → Color → Color → List (List (Color × Color))
  | [], _, _ => [[]]
  | Instr.setBackgroundColor c :: rest, _, fgc => splitCells rest c fgc
  | Instr.setForegroundColor c :: rest, bgc, _ => splitCells rest bgc c
  | Instr.print _ :: rest, bgc, fgc =>
    match splitCells rest bgc fgc with
    | [] => [[(bgc, fgc)]]
    | row :: rows => ((bgc, fgc) :: row) :: rows
  | Instr.moveToNextLine _ :: rest, bgc, fgc => [] :: splitCells rest bgc fgc

/-- The closed cell rows rendered by an instruction stream, starting from an
arbitrary terminal color state. -/
def cellRows (l : List Instr) (bg0 fg0 : Color) : List (List (Color × Color)) :=
  (splitCells l bg0 fg0).dropLast

/-- The rendered color pairs of the cells at row coordinate `y`, for the columns
`xs`: background from pixel `(x, y*2)`, foreground from pixel `(x, y*2+1)`. -/
def cellsOf (fb : FrameBuffer) (y : Nat) (xs : List Nat) : List (Color × Color) :=
  xs.map fun x => (pixColor (fb.read x (y * 2)), pixColor (fb.read x (y * 2 + 1)))

/-- Modelled from the spec: the cell grid the compositor must render — `H/2` rows
of `W` cells, cell `(r, c)` colored by pixels `(c, 2r)` (background) and
`(c, 2r+1)` (foreground). -/
def specCellGrid (W H : Nat) (fb : FrameBuffer) : List (List (Color × Color)) :=
  (List.range (H / 2)).map fun y => cellsOf fb y (List.range W)

/-- Whether an instruction is a color-change instruction. -/
def isColorInstr : Instr → Bool
  | Instr.setBackgroundColor _ => true
  | Instr.setForegroundColor _ => true
  | _ => false

/-- The number of color-change instructions `create_frame` emits for the cells,
i.e. not counting the two unconditional black instructions at the head. -/
def cellColorChanges (W H : Nat) (fb : FrameBuffer) : Nat :=
  ((create_frame W H fb).drop 2).countP isColorInstr

/-! ## Frame pump (`handle_frame` in `main.rs`) -/

/-- The observable outcome of `handle_frame`: the advanced core state, the buffer
handed to `render_frame` (the one returned by the final `gameboy.frame` call), the
event list after the cycle (cleared), and the trace of arguments passed to the
core's frame-advance calls, in order. -/
structure HandleFrameResult (σ β : Type) where
  gameboy : σ
  rendered : β
  events : List JoypadEvent
  trace : List (Option (List JoypadEvent))

/-- The `for _ in 0..FRAMES_PER_CYCLE-1` warm-up loop of `handle_frame`: each
iteration calls `gameboy.frame(Some(joypad_events))`, discarding the returned
buffer.  The core is abstract: `frame` is its frame-advance operation. -/
def pumpIter {σ β : Type} (frame : σ → Option (List JoypadEvent) → σ × β)
    (events : List JoypadEvent) : Nat → σ → σ × List (Option (List JoypadEvent))
  | 0, gb => (gb, [])
  | n + 1, gb =>
    let step := frame gb (some events)
    let rest := pumpIter frame events n step.1
    (rest.1, some events :: rest.2)

/-- Iterating the core's frame advance with the same event argument (specification
side, for stating which buffer ends up rendered). -/
def pumpState {σ β : Type} (frame : σ → Option (List JoypadEvent) → σ × β)
    (events : List JoypadEvent) : Nat → σ → σ
  | 0, gb => gb
  | n + 1, gb => pumpState frame events n (frame gb (some events)).1

/-- `handle_frame` from `main.rs`: `FRAMES_PER_CYCLE - 1` warm-up calls, a final
call whose buffer is rendered, then `joypad_events.clear()`.  Every call receives
`Some(joypad_events)`. -/
def handle_frame {σ β : Type} (frame : σ → Option (List JoypadEvent) → σ × β)
    (gameboy : σ) (joypad_events : List JoypadEvent) : HandleFrameResult σ β :=
  let warm := pumpIter frame joypad_events (FRAMES_PER_CYCLE - 1) gameboy
  let final := frame warm.1 (some joypad_events)
  { gameboy := final.1
    rendered := final.2
    events := []
    trace := warm.2 ++ [some joypad_events] }

/-! ## Pacer (`cli`, end of the main loop) -/

/-- The sleep performed at the end of a cycle (`main.rs` lines 218-220), in
nanoseconds: `if elapsed < frame_duration { sleeper.sleep(frame_duration - elapsed) }`,
and no sleep call otherwise. -/
def pacer_sleep (frame_duration elapsed : Nat) : Nat :=
  if elapsed < frame_duration then frame_duration - elapsed else 0

/-! ## Main loop (`cli` in `main.rs`) -/

/-- The terminal-mode commands `cli` issues through `execute!`,
`terminal::enable_raw_mode` and friends. -/
inductive TermCmd where
  | enterAlternateScreen
  | leaveAlternateScreen
  | enableRawMode
  | disableRawMode
  | hideCursor
  | showCursor
deriving DecidableEq

/-- The terminal-mode state affected by those commands. -/
structure TermState where
  alternateScreen : Bool
  rawMode : Bool
  cursorHidden : Bool
deriving DecidableEq

/-- The terminal before `cli` runs: main screen, cooked mode, visible cursor. -/
def termInit : TermState := ⟨false, false, false⟩

/-- Effect of one terminal command on the terminal-mode state. -/
def applyCmd (t : TermState) : TermCmd → TermState
  | TermCmd.enterAlternateScreen => { t with alternateScreen := true }
  | TermCmd.leaveAlternateScreen => { t with alternateScreen := false }
  | TermCmd.enableRawMode => { t with rawMode := true }
  | TermCmd.disableRawMode => { t with rawMode := false }
  | TermCmd.hideCursor => { t with cursorHidden := true }
  | TermCmd.showCursor => { t with cursorHidden := false }

/-- Effect of a command sequence on the terminal-mode state. -/
def applyCmds (t : TermState) (l : List TermCmd) : TermState :=
  l.foldl applyCmd t

/-- The setup commands of `cli` (`main.rs` lines 135-138): enter the alternate
screen, enable raw mode, hide the cursor. -/
def cliSetupCmds : List TermCmd :=
  [TermCmd.enterAlternateScreen, TermCmd.enableRawMode, TermCmd.hideCursor]

/-- How a run of the main loop ended. -/
inductive LoopExit where
  | quit
  | disconnected
deriving DecidableEq

/-- Result of the inner `rx.try_recv()` drain loop of `cli` (lines 170-185). -/
inductive DrainOut where
  | quit (keys : List Char)
  | ready (keys : List Char)
  | disconnected (keys : List Char)
deriving DecidableEq

/-- The drain loop itself: the channel's currently queued characters are consumed
in order; `'q'` short-circuits with a quit, exhausting the queue ends with
`Empty` (ready) or, when the sender is gone, `Disconnected`. -/
def drainLoop (pressed : List Char) : List Char → Bool → DrainOut
  | [], disc => if disc then DrainOut.disconnected pressed else DrainOut.ready pressed
  | c :: rest, disc =>
    if c = 'q' then DrainOut.quit pressed
    else drainLoop (pressed ++ [c]) rest disc

/-- The observable outcome of one iteration of the `'running` loop of `cli`:
whether it broke out of the loop, which teardown commands it executed, the events
it derived and handed to the core, how many core frame-advances and renders it
performed, and the `previous_pressed_keys` value for the next iteration. -/
structure CycleResult where
  exit : Option LoopExit
  teardown : List TermCmd
  events : List JoypadEvent
  pumps : Nat
  renders : Nat
  nextPrev : List Char
deriving DecidableEq

/-- One iteration of the `'running` loop of `cli` (lines 163-220), given the
characters currently queued on the stdin channel and whether the channel is
disconnected once they are drained.  On `'q'`: leave the alternate screen, show
the cursor, break — no events, no frame pump, no render.  On disconnection:
break with no teardown at all.  Otherwise: diff the pressed sets, run
`handle_frame` (which advances the core `FRAMES_PER_CYCLE` times and renders
once), and replace `previous_pressed_keys`. -/
def cliCycle (prev : List Char) (queue : List Char) (disc : Bool) : CycleResult :=
  match drainLoop [] queue disc with
  | DrainOut.quit _ =>
    { exit := some LoopExit.quit
      teardown := [TermCmd.leaveAlternateScreen, TermCmd.showCursor]
      events := []
      pumps := 0
      renders := 0
      nextPrev := prev }
  | DrainOut.disconnected _ =>
    { exit := some LoopExit.disconnected
      teardown := []
      events := []
      pumps := 0
      renders := 0
      nextPrev := prev }
  | DrainOut.ready pressed =>
    { exit := none
      teardown := []
      events := diffEvents prev pressed
      pumps := FRAMES_PER_CYCLE
      renders := 1
      nextPrev := pressed }

/-- Running the `'running` loop over a script of per-cycle channel contents:
returns the teardown commands executed and how the loop exited (`none` when the
script ran out with the loop still going). -/
def runLoop (prev : List Char) : List (List Char × Bool) → List TermCmd × Option LoopExit
  | [] => ([], none)
  | (q, d) :: rest =>
    match (cliCycle prev q d).exit with
    | some e => ((cliCycle prev q d).teardown, some e)
    | none => runLoop (cliCycle prev q d).nextPrev rest

/-- The `previous_pressed_keys` value after running a script of cycles. -/
def prevAfter (prev : List Char) : List (List Char × Bool) → List Char
  | [] => prev
  | (q, d) :: rest => prevAfter (cliCycle prev q d).nextPrev rest

/-- The observable outcome of a whole `cli` run. -/
structure CliOutcome where
  termCmds : List TermCmd
  exit : Option LoopExit
  result : Bool

/-- `cli` from `main.rs`, at the terminal-mode level: issue the setup commands,
run the loop (with `previous_pressed_keys` initially empty), and — on either
`break 'running` path — fall through to `Ok(())` (`result := true`). -/
def cli_run (script : List (List Char × Bool)) : CliOutcome :=
  { termCmds := cliSetupCmds ++ (runLoop [] script).1
    exit := (runLoop [] script).2
    result := true }

/-- Concrete all-white frame buffer used as an input below. -/
def whiteFB : FrameBuffer := ⟨fun _ _ => ⟨255, 255, 255⟩⟩

/-- Concrete all-black frame buffer used as an input below. -/
def blackFB : FrameBuffer := ⟨fun _ _ => ⟨0, 0, 0⟩⟩

/-- Concrete frame buffer whose pixel `(x, y)` has red channel `y`. -/
def sampleFB : FrameBuffer := ⟨fun _ y => ⟨y, 0, 0⟩⟩

/-- A concrete abstract core used as an input below: the state counts the
frame-advance calls and the returned buffer is the pre-call state. -/
def sampleCore : Nat → Option (List JoypadEvent) → Nat × Nat := fun n _ => (n + 1, n)

/-! ## Lemmas about the input diff engine -/

theorem char_to_joypad_input_eq_some (k : Char) (i : JoypadInput) :
    char_to_joypad_input k = some i ↔ k = buttonChar i := by
  constructor
  · unfold char_to_joypad_input
    split_ifs with h1 h2 h3 h4 h5 h6 h7 h8 <;> intro hm
    · injection hm with hi; subst hi; exact h1
    · injection hm with hi; subst hi; exact h2
    · injection hm with hi; subst hi; exact h3
    · injection hm with hi; subst hi; exact h4
    · injection hm with hi; subst hi; exact h5
    · injection hm with hi; subst hi; exact h6
    · injection hm with hi; subst hi; exact h7
    · injection hm with hi; subst hi; exact h8
    · simp at hm
  · intro h
    subst h
    cases i <;> decide

theorem upEvents_cons_mem {k : Char} {cur : List Char} (rest : List Char) (hk : k ∈ cur) :
    upEvents (k :: rest) cur = upEvents rest cur := by
  rw [upEvents, if_pos hk]

theorem upEvents_cons_none {k : Char} {cur : List Char} (rest : List Char) (hk : k ∉ cur)
    (hmap : char_to_joypad_input k = none) :
    upEvents (k :: rest) cur = upEvents rest cur := by
  rw [upEvents, if_neg hk, hmap]

theorem upEvents_cons_some {k : Char} {cur : List Char} (rest : List Char) {j : JoypadInput}
    (hk : k ∉ cur) (hmap : char_to_joypad_input k = some j) :
    upEvents (k :: rest) cur = JoypadEvent.up j :: upEvents rest cur := by
  rw [upEvents, if_neg hk, hmap]

theorem downEvents_cons_mem {k : Char} {prev : List Char} (rest : List Char) (hk : k ∈ prev) :
    downEvents prev (k :: rest) = downEvents prev rest := by
  rw [downEvents, if_pos hk]

theorem downEvents_cons_none {k : Char} {prev : List Char} (rest : List Char) (hk : k ∉ prev)
    (hmap : char_to_joypad_input k = none) :
    downEvents prev (k :: rest) = downEvents prev rest := by
  rw [downEvents, if_neg hk, hmap]

theorem downEvents_cons_some {k : Char} {prev : List Char} (rest : List Char) {j : JoypadInput}
    (hk : k ∉ prev) (hmap : char_to_joypad_input k = some j) :
    downEvents prev (k :: rest) = JoypadEvent.down j :: downEvents prev rest := by
  rw [downEvents, if_neg hk, hmap]

theorem heldBy_iff (s : List Char) (i : JoypadInput) :
    heldBy s i ↔ buttonChar i ∈ s := by
  constructor
  · rintro ⟨k, hk, hmap⟩
    rwa [(char_to_joypad_input_eq_some k i).mp hmap] at hk
  · intro h
    exact ⟨buttonChar i, h, (char_to_joypad_input_eq_some _ i).mpr rfl⟩

theorem upEvents_countP (i : JoypadInput) (prev cur : List Char) :
    (upEvents prev cur).countP (concerns i) =
      if buttonChar i ∈ cur then 0 else prev.count (buttonChar i) := by
  induction prev with
  | nil => simp [upEvents]
  | cons k rest ih =>
    by_cases hk : k ∈ cur
    · rw [upEvents_cons_mem rest hk, ih]
      by_cases hm : buttonChar i ∈ cur
      · simp [hm]
      · have hne : ¬ (k = buttonChar i) := fun h => hm (h ▸ hk)
        simp [hm, List.count_cons, hne]
    · cases hmap : char_to_joypad_input k with
      | none =>
        have hne : ¬ (k = buttonChar i) := by
          intro h
          rw [(char_to_joypad_input_eq_some k i).mpr h] at hmap
          exact Option.noConfusion hmap
        rw [upEvents_cons_none rest hk hmap, ih]
        by_cases hm : buttonChar i ∈ cur
        · simp [hm]
        · simp [hm, List.count_cons, hne]
      | some j =>
        rw [upEvents_cons_some rest hk hmap, List.countP_cons, ih]
        by_cases hj : j = i
        · subst hj
          have hkc : k = buttonChar j := (char_to_joypad_input_eq_some k j).mp hmap
          subst hkc
          rw [if_neg hk, if_neg hk]
          simp [concerns, List.count_cons]
        · have hne : ¬ (k = buttonChar i) := by
            intro h
            rw [(char_to_joypad_input_eq_some k i).mpr h] at hmap
            exact hj (Option.some.inj hmap).symm
          by_cases hm : buttonChar i ∈ cur
          · simp [hm, concerns, hj]
          · simp [hm, concerns, hj, List.count_cons, hne]

theorem downEvents_countP (i : JoypadInput) (prev cur : List Char) :
    (downEvents prev cur).countP (concerns i) =
      if buttonChar i ∈ prev then 0 else cur.count (buttonChar i) := by
  induction cur with
  | nil => simp [downEvents]
  | cons k rest ih =>
    by_cases hk : k ∈ prev
    · rw [downEvents_cons_mem rest hk, ih]
      by_cases hm : buttonChar i ∈ prev
      · simp [hm]
      · have hne : ¬ (k = buttonChar i) := fun h => hm (h ▸ hk)
        simp [hm, List.count_cons, hne]
    · cases hmap : char_to_joypad_input k with
      | none =>
        have hne : ¬ (k = buttonChar i) := by
          intro h
          rw [(char_to_joypad_input_eq_some k i).mpr h] at hmap
          exact Option.noConfusion hmap
        rw [downEvents_cons_none rest hk hmap, ih]
        by_cases hm : buttonChar i ∈ prev
        · simp [hm]
        · simp [hm, List.count_cons, hne]
      | some j =>
        rw [downEvents_cons_some rest hk hmap, List.countP_cons, ih]
        by_cases hj : j = i
        · subst hj
          have hkc : k = buttonChar j := (char_to_joypad_input_eq_some k j).mp hmap
          subst hkc
          rw [if_neg hk, if_neg hk]
          simp [concerns, List.count_cons]
        · have hne : ¬ (k = buttonChar i) := by
            intro h
            rw [(char_to_joypad_input_eq_some k i).mpr h] at hmap
            exact hj (Option.some.inj hmap).symm
          by_cases hm : buttonChar i ∈ prev
          · simp [hm, concerns, hj]
          · simp [hm, concerns, hj, List.count_cons, hne]

theorem diffEvents_countP (i : JoypadInput) (prev cur : List Char) :
    (diffEvents prev cur).countP (concerns i) =
      (if buttonChar i ∈ cur then 0 else prev.count (buttonChar i)) +
        (if buttonChar i ∈ prev then 0 else cur.count (buttonChar i)) := by
  rw [diffEvents, List.countP_append, upEvents_countP, downEvents_countP]

theorem upEvents_eq_nil (prev cur : List Char) (h : ∀ k ∈ prev, k ∈ cur) :
    upEvents prev cur = [] := by
  induction prev with
  | nil => rfl
  | cons k rest ih =>
    rw [upEvents, if_pos (h k (List.mem_cons_self k rest))]
    exact ih fun x hx => h x (List.mem_cons_of_mem _ hx)

theorem downEvents_eq_nil (prev cur : List Char) (h : ∀ k ∈ cur, k ∈ prev) :
    downEvents prev cur = [] := by
  induction cur with
  | nil => rfl
  | cons k rest ih =>
    rw [downEvents, if_pos (h k (List.mem_cons_self k rest))]
    exact ih fun x hx => h x (List.mem_cons_of_mem _ hx)

theorem upEvents_all_up (prev cur : List Char) :
    ∀ e ∈ upEvents prev cur, isUpEvent e := by
  induction prev with
  | nil => simp [upEvents]
  | cons k rest ih =>
    intro e he
    rw [upEvents] at he
    by_cases hk : k ∈ cur
    · rw [if_pos hk] at he
      exact ih e he
    · rw [if_neg hk] at he
      cases hmap : char_to_joypad_input k with
      | none =>
        rw [hmap] at he
        exact ih e he
      | some j =>
        rw [hmap] at he
        rcases List.mem_cons.mp he with h | h
        · subst h; rfl
        · exact ih e h

theorem downEvents_all_down (prev cur : List Char) :
    ∀ e ∈ downEvents prev cur, isDownEvent e := by
  induction cur with
  | nil => simp [downEvents]
  | cons k rest ih =>
    intro e he
    rw [downEvents] at he
    by_cases hk : k ∈ prev
    · rw [if_pos hk] at he
      exact ih e he
    · rw [if_neg hk] at he
      cases hmap : char_to_joypad_input k with
      | none =>
        rw [hmap] at he
        exact ih e he
      | some j =>
        rw [hmap] at he
        rcases List.mem_cons.mp he with h | h
        · subst h; rfl
        · exact ih e h

/-! ## Lemmas about the compositor -/

theorem compositeCells_cons (fb : FrameBuffer) (y x : Nat) (xs : List Nat) (pb pf : Color) :
    compositeCells fb y (x :: xs) pb pf =
      ((if pixColor (fb.read x (y * 2)) = pb then [] else
          [Instr.setBackgroundColor (pixColor (fb.read x (y * 2)))]) ++
        (if pixColor (fb.read x (y * 2 + 1)) = pf then [] else
          [Instr.setForegroundColor (pixColor (fb.read x (y * 2 + 1)))]) ++
        Instr.print "▄" ::
          (compositeCells fb y xs (pixColor (fb.read x (y * 2)))
            (pixColor (fb.read x (y * 2 + 1)))).1,
        (compositeCells fb y xs (pixColor (fb.read x (y * 2)))
          (pixColor (fb.read x (y * 2 + 1)))).2) := by
  rw [compositeCells]
  by_cases h1 : pixColor (fb.read x (y * 2)) = pb <;>
    by_cases h2 : pixColor (fb.read x (y * 2 + 1)) = pf <;>
    simp [h1, h2]

theorem splitCells_ne_nil (l : List Instr) : ∀ bg fg : Color, splitCells l bg fg ≠ [] := by
  induction l with
  | nil => intro bg fg; simp [splitCells]
  | cons i rest ih =>
    intro bg fg
    cases i with
    | setBackgroundColor c => rw [splitCells]; exact ih c fg
    | setForegroundColor c => rw [splitCells]; exact ih bg c
    | print s =>
      rw [splitCells]
      cases h : splitCells rest bg fg with
      | nil => simp
      | cons r rs => simp
    | moveToNextLine n => rw [splitCells]; simp

theorem splitCells_print_cons {g : String} {t : List Instr} {bg fg : Color}
    {r : List (Color × Color)} {rs : List (List (Color × Color))}
    (h : splitCells t bg fg = r :: rs) :
    splitCells (Instr.print g :: t) bg fg = ((bg, fg) :: r) :: rs := by
  rw [splitCells, h]

theorem splitCells_compositeCells_append (fb : FrameBuffer) (y : Nat) (xs : List Nat) :
    ∀ (pb pf : Color) (k : List Instr) (r : List (Color × Color))
      (rs : List (List (Color × Color))),
      splitCells k (compositeCells fb y xs pb pf).2.1 (compositeCells fb y xs pb pf).2.2 =
        r :: rs →
      splitCells ((compositeCells fb y xs pb pf).1 ++ k) pb pf =
        (cellsOf fb y xs ++ r) :: rs := by
  induction xs with
  | nil =>
    intro pb pf k r rs h
    rw [compositeCells] at h ⊢
    simpa [cellsOf] using h
  | cons x xs ih =>
    intro pb pf k r rs h
    rw [compositeCells_cons] at h ⊢
    have ih' := ih (pixColor (fb.read x (y * 2))) (pixColor (fb.read x (y * 2 + 1))) k r rs h
    by_cases h1 : pixColor (fb.read x (y * 2)) = pb <;>
      by_cases h2 : pixColor (fb.read x (y * 2 + 1)) = pf <;>
      simp only [h1, h2, if_true, if_false, eq_self_iff_true, List.nil_append,
        List.cons_append, List.append_assoc, List.singleton_append]
    · rw [h1, h2] at ih'
      rw [splitCells_print_cons ih']
      simp [cellsOf, h1, h2]
    · rw [h1] at ih'
      rw [splitCells, splitCells_print_cons ih']
      simp [cellsOf, h1]
    · rw [h2] at ih'
      rw [splitCells, splitCells_print_cons ih']
      simp [cellsOf, h2]
    · rw [splitCells, splitCells, splitCells_print_cons ih']
      simp [cellsOf]

theorem splitCells_compositeRows (fb : FrameBuffer) (W : Nat) (ys : List Nat) :
    ∀ pb pf : Color,
      splitCells (compositeRows fb W ys pb pf).1 pb pf =
        ys.map (fun y => cellsOf fb y (List.range W)) ++ [[]] := by
  induction ys with
  | nil => intro pb pf; simp [compositeRows, splitCells]
  | cons y ys ih =>
    intro pb pf
    rw [compositeRows]
    have h : splitCells
        (Instr.moveToNextLine 1 ::
          (compositeRows fb W ys (compositeCells fb y (List.range W) pb pf).2.1
            (compositeCells fb y (List.range W) pb pf).2.2).1)
        (compositeCells fb y (List.range W) pb pf).2.1
        (compositeCells fb y (List.range W) pb pf).2.2 =
        [] :: (ys.map (fun y => cellsOf fb y (List.range W)) ++ [[]]) := by
      rw [splitCells, ih]
    have hmain := splitCells_compositeCells_append fb y (List.range W) pb pf _ _ _ h
    simpa using hmain

theorem splitCells_create_frame (W H : Nat) (fb : FrameBuffer) (bg0 fg0 : Color) :
    splitCells (create_frame W H fb) bg0 fg0 = specCellGrid W H fb ++ [[]] := by
  rw [create_frame, splitCells, splitCells, splitCells_compositeRows]
  rfl

theorem cellRows_create_frame (W H : Nat) (fb : FrameBuffer) (bg0 fg0 : Color) :
    cellRows (create_frame W H fb) bg0 fg0 = specCellGrid W H fb := by
  rw [cellRows, splitCells_create_frame, List.dropLast_concat]

theorem splitCells_compositeCellsPlain_append (fb : FrameBuffer) (y : Nat) (xs : List Nat) :
    ∀ (pb pf : Color) (k : List Instr) (r : List (Color × Color))
      (rs : List (List (Color × Color))),
      (∀ bg fg : Color, splitCells k bg fg = r :: rs) →
      splitCells (compositeCellsPlain fb y xs ++ k) pb pf = (cellsOf fb y xs ++ r) :: rs := by
  induction xs with
  | nil =>
    intro pb pf k r rs h
    rw [compositeCellsPlain]
    simpa [cellsOf] using h pb pf
  | cons x xs ih =>
    intro pb pf k r rs h
    rw [compositeCellsPlain, List.cons_append, List.cons_append, List.cons_append,
      splitCells, splitCells,
      splitCells_print_cons
        (ih (pixColor (fb.read x (y * 2))) (pixColor (fb.read x (y * 2 + 1))) k r rs h)]
    simp [cellsOf]

theorem splitCells_compositeRowsPlain (fb : FrameBuffer) (W : Nat) (ys : List Nat) :
    ∀ pb pf : Color,
      splitCells (compositeRowsPlain fb W ys) pb pf =
        ys.map (fun y => cellsOf fb y (List.range W)) ++ [[]] := by
  induction ys with
  | nil => intro pb pf; simp [compositeRowsPlain, splitCells]
  | cons y ys ih =>
    intro pb pf
    rw [compositeRowsPlain, List.map_cons, List.cons_append]
    have hk : ∀ bg fg : Color,
        splitCells (Instr.moveToNextLine 1 :: compositeRowsPlain fb W ys) bg fg =
          [] :: (ys.map (fun y => cellsOf fb y (List.range W)) ++ [[]]) := by
      intro bg fg
      rw [splitCells, ih]
    have happ := splitCells_compositeCellsPlain_append fb y (List.range W) pb pf _ _ _ hk
    simpa using happ

theorem cellRows_create_frame_noelide (W H : Nat) (fb : FrameBuffer) (bg0 fg0 : Color) :
    cellRows (create_frame_noelide W H fb) bg0 fg0 = specCellGrid W H fb := by
  rw [cellRows, create_frame_noelide, splitCells, splitCells,
    splitCells_compositeRowsPlain]
  rw [specCellGrid, List.dropLast_concat]

theorem countP_isColorInstr_compositeCells (fb : FrameBuffer) (y : Nat) (xs : List Nat) :
    ∀ pb pf : Color,
      ((compositeCells fb y xs pb pf).1.countP isColorInstr = 0 ↔
        ∀ x ∈ xs,
          pixColor (fb.read x (y * 2)) = pb ∧ pixColor (fb.read x (y * 2 + 1)) = pf) := by
  induction xs with
  | nil => intro pb pf; simp [compositeCells]
  | cons x xs ih =>
    intro pb pf
    rw [compositeCells_cons]
    by_cases h1 : pixColor (fb.read x (y * 2)) = pb <;>
      by_cases h2 : pixColor (fb.read x (y * 2 + 1)) = pf <;>
      simp [h1, h2, List.countP_append, List.countP_cons, isColorInstr,
        List.forall_mem_cons, ih]

theorem compositeCells_end_of_const (fb : FrameBuffer) (y : Nat) (xs : List Nat) :
    ∀ pb pf : Color,
      (∀ x ∈ xs,
        pixColor (fb.read x (y * 2)) = pb ∧ pixColor (fb.read x (y * 2 + 1)) = pf) →
      (compositeCells fb y xs pb pf).2 = (pb, pf) := by
  induction xs with
  | nil => intro pb pf h; rfl
  | cons x xs ih =>
    intro pb pf h
    rw [compositeCells_cons]
    have hx := h x (List.mem_cons_self x xs)
    rw [hx.1, hx.2]
    exact ih pb pf fun x' hx' => h x' (List.mem_cons_of_mem _ hx')

theorem countP_isColorInstr_compositeRows (fb : FrameBuffer) (W : Nat) (ys : List Nat) :
    ∀ pb pf : Color,
      ((compositeRows fb W ys pb pf).1.countP isColorInstr = 0 ↔
        ∀ y ∈ ys, ∀ x ∈ List.range W,
          pixColor (fb.read x (y * 2)) = pb ∧ pixColor (fb.read x (y * 2 + 1)) = pf) := by
  induction ys with
  | nil => intro pb pf; simp [compositeRows]
  | cons y ys ih =>
    intro pb pf
    rw [compositeRows, List.forall_mem_cons]
    constructor
    · intro h0
      rw [List.countP_append, List.countP_cons] at h0
      have hrow : (compositeCells fb y (List.range W) pb pf).1.countP isColorInstr = 0 := by
        omega
      have hcells := (countP_isColorInstr_compositeCells fb y (List.range W) pb pf).mp hrow
      have hend := compositeCells_end_of_const fb y (List.range W) pb pf hcells
      have hrest : (compositeRows fb W ys (compositeCells fb y (List.range W) pb pf).2.1
          (compositeCells fb y (List.range W) pb pf).2.2).1.countP isColorInstr = 0 := by
        omega
      rw [hend] at hrest
      exact ⟨hcells, (ih pb pf).mp hrest⟩
    · intro h0
      have hrow :=
        (countP_isColorInstr_compositeCells fb y (List.range W) pb pf).mpr h0.1
      have hend := compositeCells_end_of_const fb y (List.range W) pb pf h0.1
      have h21 : (compositeCells fb y (List.range W) pb pf).2.1 = pb := by rw [hend]
      have h22 : (compositeCells fb y (List.range W) pb pf).2.2 = pf := by rw [hend]
      show List.countP isColorInstr
          ((compositeCells fb y (List.range W) pb pf).1 ++
            Instr.moveToNextLine 1 ::
              (compositeRows fb W ys (compositeCells fb y (List.range W) pb pf).2.1
                (compositeCells fb y (List.range W) pb pf).2.2).1) = 0
      rw [h21, h22, List.countP_append, List.countP_cons, hrow, (ih pb pf).mpr h0.2]
      rfl

theorem print_mem_compositeCells (fb : FrameBuffer) (y : Nat) (xs : List Nat) :
    ∀ (pb pf : Color) (s : String),
      Instr.print s ∈ (compositeCells fb y xs pb pf).1 → s = "▄" := by
  induction xs with
  | nil => intro pb pf s h; simp [compositeCells] at h
  | cons x xs ih =>
    intro pb pf s h
    rw [compositeCells_cons] at h
    by_cases h1 : pixColor (fb.read x (y * 2)) = pb <;>
      by_cases h2 : pixColor (fb.read x (y * 2 + 1)) = pf <;>
      simp [h1, h2, List.mem_append, List.mem_cons] at h <;>
      rcases h with h | h <;>
      first
        | exact h
        | exact ih _ _ s h

theorem print_mem_compositeRows (fb : FrameBuffer) (W : Nat) (ys : List Nat) :
    ∀ (pb pf : Color) (s : String),
      Instr.print s ∈ (compositeRows fb W ys pb pf).1 → s = "▄" := by
  induction ys with
  | nil => intro pb pf s h; simp [compositeRows] at h
  | cons y ys ih =>
    intro pb pf s h
    rw [compositeRows] at h
    rcases List.mem_append.mp h with h' | h'
    · exact print_mem_compositeCells fb y (List.range W) pb pf s h'
    rcases List.mem_cons.mp h' with h'' | h''
    · injection h''
    · exact ih _ _ s h''

/-! ## Lemmas about the frame pump and the main loop -/

theorem pumpIter_fst {σ β : Type} (frame : σ → Option (List JoypadEvent) → σ × β)
    (events : List JoypadEvent) :
    ∀ (n : Nat) (gb : σ), (pumpIter frame events n gb).1 = pumpState frame events n gb := by
  intro n
  induction n with
  | zero => intro gb; rfl
  | succ n ih =>
    intro gb
    rw [pumpIter, pumpState]
    exact ih _

theorem pumpIter_trace_length {σ β : Type} (frame : σ → Option (List JoypadEvent) → σ × β)
    (events : List JoypadEvent) :
    ∀ (n : Nat) (gb : σ), (pumpIter frame events n gb).2.length = n := by
  intro n
  induction n with
  | zero => intro gb; rfl
  | succ n ih =>
    intro gb
    rw [pumpIter]
    show (some events :: (pumpIter frame events n _).2).length = n + 1
    rw [List.length_cons, ih]

theorem pumpIter_trace_mem {σ β : Type} (frame : σ → Option (List JoypadEvent) → σ × β)
    (events : List JoypadEvent) :
    ∀ (n : Nat) (gb : σ) (o : Option (List JoypadEvent)),
      o ∈ (pumpIter frame events n gb).2 → o = some events := by
  intro n
  induction n with
  | zero => intro gb o ho; simp [pumpIter] at ho
  | succ n ih =>
    intro gb o ho
    rw [pumpIter] at ho
    rcases List.mem_cons.mp ho with h | h
    · exact h
    · exact ih _ o h

theorem drainLoop_quit (q : List Char) :
    ∀ (acc : List Char) (d : Bool), 'q' ∈ q →
      ∃ ks, drainLoop acc q d = DrainOut.quit ks := by
  induction q with
  | nil => intro acc d h; simp at h
  | cons c rest ih =>
    intro acc d h
    by_cases hc : c = 'q'
    · subst hc
      exact ⟨acc, by rw [drainLoop, if_pos rfl]⟩
    · have hmem : 'q' ∈ rest := by
        rcases List.mem_cons.mp h with h' | h'
        · exact absurd h'.symm hc
        · exact h'
      obtain ⟨ks, hks⟩ := ih (acc ++ [c]) d hmem
      refine ⟨ks, ?_⟩
      rw [drainLoop, if_neg hc]
      exact hks

theorem cliCycle_quit (prev q : List Char) (d : Bool) (hq : 'q' ∈ q) :
    cliCycle prev q d =
      { exit := some LoopExit.quit
        teardown := [TermCmd.leaveAlternateScreen, TermCmd.showCursor]
        events := []
        pumps := 0
        renders := 0
        nextPrev := prev } := by
  obtain ⟨ks, hks⟩ := drainLoop_quit q [] d hq
  rw [cliCycle, hks]

theorem runLoop_append (s2 : List (List Char × Bool)) :
    ∀ (s1 : List (List Char × Bool)) (prev : List Char),
      (runLoop prev s1).2 = none →
      runLoop prev (s1 ++ s2) = runLoop (prevAfter prev s1) s2 := by
  intro s1
  induction s1 with
  | nil => intro prev h; rfl
  | cons qd rest ih =>
    intro prev h
    obtain ⟨q, d⟩ := qd
    cases hex : (cliCycle prev q d).exit with
    | some e =>
      rw [runLoop, hex] at h
      simp at h
    | none =>
      rw [runLoop, hex] at h
      rw [List.cons_append, runLoop, hex, prevAfter]
      exact ih _ h

/-! ## Claim theorems: input diff engine -/

/-- Claim C1, counterexample to the claim as stated: the code stores the
pressed sets as unordered `Vec<char>` lists, so a polling window that drains the
same key code twice (two raw `'w'` bytes in one cycle) makes the diff engine emit
`Pressed(Up)` twice in a single cycle, violating the at-most-one invariant. -/
theorem C1_counterexample :
    ¬ ((diffEvents [] ['w', 'w']).countP (concerns JoypadInput.up) ≤ 1) := by
  decide

/-- Claim C1 (amended: the invariant holds provided the previous and current
drained key-code lists contain no duplicate key codes): for every button `i`,
the diff engine emits at most one `Pressed(i)`/`Released(i)` event per cycle, and
it emits exactly one iff `i`'s held status (some drained key code maps to `i`)
differs between the previous and current pressed sets. -/
theorem C1_diff_engine (prev cur : List Char) (i : JoypadInput)
    (hprev : prev.Nodup) (hcur : cur.Nodup) :
    (diffEvents prev cur).countP (concerns i) ≤ 1 ∧
      ((diffEvents prev cur).countP (concerns i) = 1 ↔
        ¬ (heldBy prev i ↔ heldBy cur i)) := by
  rw [diffEvents_countP, heldBy_iff, heldBy_iff]
  by_cases hp : buttonChar i ∈ prev <;> by_cases hc : buttonChar i ∈ cur
  · simp [hp, hc]
  · rw [if_neg hc, if_pos hp, List.count_eq_one_of_mem hprev hp]
    simp [hp, hc]
  · rw [if_pos hc, if_neg hp, List.count_eq_one_of_mem hcur hc]
    simp [hp, hc]
  · rw [if_neg hc, if_neg hp, List.count_eq_zero_of_not_mem hp,
      List.count_eq_zero_of_not_mem hc]
    simp [hp, hc]

/-- Witness for C1 at a concrete duplicate-free input: previous set empty,
current set `['w']`; the engine emits exactly one event for the Up button and
the held status changed. -/
theorem C1_witness :
    List.Nodup ([] : List Char) ∧ List.Nodup ['w'] ∧
      ((diffEvents [] ['w']).countP (concerns JoypadInput.up) ≤ 1 ∧
        ((diffEvents [] ['w']).countP (concerns JoypadInput.up) = 1 ↔
          ¬ (heldBy [] JoypadInput.up ↔ heldBy ['w'] JoypadInput.up))) :=
  ⟨by decide, by decide, C1_diff_engine [] ['w'] JoypadInput.up (by decide) (by decide)⟩

/-- Claim C7 (confirmed): feeding the same pressed set twice in a row — the
previous and current drained key-code lists have the same members — makes the
diff engine emit zero events. -/
theorem C7_idempotent (prev cur : List Char) (h : ∀ k, k ∈ prev ↔ k ∈ cur) :
    diffEvents prev cur = [] := by
  rw [diffEvents, upEvents_eq_nil prev cur fun k hk => (h k).mp hk,
    downEvents_eq_nil prev cur fun k hk => (h k).mpr hk]
  rfl

/-- Witness for C7 at a concrete input: `['w','w']` and `['w']` denote the same
pressed set, and the second cycle emits zero events. -/
theorem C7_witness :
    (∀ k : Char, k ∈ (['w', 'w'] : List Char) ↔ k ∈ (['w'] : List Char)) ∧
      diffEvents ['w', 'w'] ['w'] = [] := by
  have h : ∀ k : Char, k ∈ (['w', 'w'] : List Char) ↔ k ∈ (['w'] : List Char) := by
    intro k
    simp
  exact ⟨h, C7_idempotent ['w', 'w'] ['w'] h⟩

/-- Claim C9 (confirmed): within one cycle the event list is all `Released`/`Up`
events followed by all `Pressed`/`Down` events — the list equals its `Up` part
followed by its `Down` part. -/
theorem C9_order (prev cur : List Char) :
    diffEvents prev cur =
      (diffEvents prev cur).filter isUpEvent ++
        (diffEvents prev cur).filter isDownEvent := by
  have hu := upEvents_all_up prev cur
  have hd := downEvents_all_down prev cur
  have hud : ∀ e ∈ upEvents prev cur, ¬ (isDownEvent e = true) := by
    intro e he
    have := hu e he
    cases e with
    | up j => simp [isDownEvent]
    | down j => simp [isUpEvent] at this
  have hdu : ∀ e ∈ downEvents prev cur, ¬ (isUpEvent e = true) := by
    intro e he
    have := hd e he
    cases e with
    | up j => simp [isDownEvent] at this
    | down j => simp [isUpEvent]
  rw [diffEvents, List.filter_append, List.filter_append,
    List.filter_eq_self.mpr hu, List.filter_eq_self.mpr hd,
    List.filter_eq_nil_iff.mpr hud, List.filter_eq_nil_iff.mpr hdu,
    List.append_nil, List.nil_append]

/-- Witness instance of C9 at a concrete input. -/
theorem C9_witness :
    diffEvents ['w'] ['a'] =
      (diffEvents ['w'] ['a']).filter isUpEvent ++
        (diffEvents ['w'] ['a']).filter isDownEvent :=
  C9_order ['w'] ['a']

/-! ## Claim theorems: compositor -/

/-- Claim C4, counterexample to the claim as stated: take the previous and the
current frame both all white — every pixel pair is identical to the previous
frame at the same coordinates — yet composing the current frame emits color-change
instructions for the cells, because the elision registers are reset to black at
every frame start and are never compared against the previous frame. -/
theorem C4_counterexample :
    (∀ x y : Nat, whiteFB.read x y = whiteFB.read x y) ∧
      cellColorChanges 1 2 whiteFB ≠ 0 :=
  ⟨fun _ _ => rfl, by decide⟩

/-- Claim C4 (amended: the compositor's elision is purely within-frame — a cell
emits no color-change instruction exactly when its colors equal the running
last-emitted colors, which start black each frame; identity with the previous
frame is irrelevant): a composed frame emits zero per-cell color-change
instructions iff every pixel the compositor reads is black. -/
theorem C4_elision (W H : Nat) (fb : FrameBuffer) :
    cellColorChanges W H fb = 0 ↔
      ∀ y ∈ List.range (H / 2), ∀ x ∈ List.range W,
        pixColor (fb.read x (y * 2)) = blackColor ∧
          pixColor (fb.read x (y * 2 + 1)) = blackColor := by
  have hdrop : (create_frame W H fb).drop 2 =
      (compositeRows fb W (List.range (H / 2)) blackColor blackColor).1 := rfl
  rw [cellColorChanges, hdrop]
  exact countP_isColorInstr_compositeRows fb W (List.range (H / 2)) blackColor blackColor

/-- Witness for C4 at a concrete input: the all-black frame composes with zero
per-cell color-change instructions. -/
theorem C4_witness : cellColorChanges 1 2 blackFB = 0 :=
  (C4_elision 1 2 blackFB).mpr (by decide)

/-- Claim C5 (confirmed): for a `W × H` frame buffer with even `H`, the
compositor renders exactly `H/2` cell rows of `W` cells each, cell `(r, c)`
taking pixel `(c, 2r)` as background and pixel `(c, 2r+1)` as foreground with the
lower-half-block glyph `▄`; and the rendered colors starting from any terminal
state equal those of the elision-free compositor — elision never affects the
final rendered colors. -/
theorem C5_compositor (W H : Nat) (fb : FrameBuffer) (bg0 fg0 : Color)
    (_hH : 2 ∣ H) :
    cellRows (create_frame W H fb) bg0 fg0 = specCellGrid W H fb ∧
      cellRows (create_frame_noelide W H fb) bg0 fg0 = specCellGrid W H fb ∧
      (specCellGrid W H fb).length = H / 2 ∧
      (∀ row ∈ specCellGrid W H fb, row.length = W) ∧
      (∀ s : String, Instr.print s ∈ create_frame W H fb → s = "▄") := by
  refine ⟨cellRows_create_frame W H fb bg0 fg0,
    cellRows_create_frame_noelide W H fb bg0 fg0, ?_, ?_, ?_⟩
  · simp [specCellGrid]
  · intro row hrow
    rw [specCellGrid] at hrow
    obtain ⟨y, hy, rfl⟩ := List.mem_map.mp hrow
    simp [cellsOf]
  · intro s hs
    rw [create_frame] at hs
    rcases List.mem_cons.mp hs with h | h
    · exact absurd h (by simp)
    rcases List.mem_cons.mp h with h' | h'
    · exact absurd h' (by simp)
    · exact print_mem_compositeRows fb W _ blackColor blackColor s h'

/-- Witness for C5 at a concrete input: a 1-column, 2-pixel-tall buffer
composites to exactly one cell row with the two pixel colors. -/
theorem C5_witness :
    (2 : Nat) ∣ 2 ∧
      (cellRows (create_frame 1 2 sampleFB) blackColor blackColor =
          specCellGrid 1 2 sampleFB ∧
        cellRows (create_frame_noelide 1 2 sampleFB) blackColor blackColor =
          specCellGrid 1 2 sampleFB ∧
        (specCellGrid 1 2 sampleFB).length = 2 / 2 ∧
        (∀ row ∈ specCellGrid 1 2 sampleFB, row.length = 1) ∧
        (∀ s : String, Instr.print s ∈ create_frame 1 2 sampleFB → s = "▄")) :=
  ⟨by decide, C5_compositor 1 2 sampleFB blackColor blackColor (by decide)⟩

/-- Claim C10 (confirmed): every composed frame starts with exactly the two
unconditional color instructions setting background and foreground to black,
before any cell, and the compositor's output renders identically from any
terminal color state — the elision baseline is reset to black each frame and
never carried over from the previous frame. -/
theorem C10_prelude (W H : Nat) (fb : FrameBuffer) :
    (∃ rest : List Instr,
        create_frame W H fb =
          Instr.setBackgroundColor blackColor ::
            Instr.setForegroundColor blackColor :: rest) ∧
      ∀ bg0 fg0 bg1 fg1 : Color,
        splitCells (create_frame W H fb) bg0 fg0 =
          splitCells (create_frame W H fb) bg1 fg1 := by
  refine ⟨⟨(compositeRows fb W (List.range (H / 2)) blackColor blackColor).1, rfl⟩, ?_⟩
  intro bg0 fg0 bg1 fg1
  rw [splitCells_create_frame, splitCells_create_frame]

/-- Witness instance of C10 at a concrete input. -/
theorem C10_witness :
    (∃ rest : List Instr,
        create_frame 1 2 sampleFB =
          Instr.setBackgroundColor blackColor ::
            Instr.setForegroundColor blackColor :: rest) ∧
      ∀ bg0 fg0 bg1 fg1 : Color,
        splitCells (create_frame 1 2 sampleFB) bg0 fg0 =
          splitCells (create_frame 1 2 sampleFB) bg1 fg1 :=
  C10_prelude 1 2 sampleFB

/-! ## Claim theorems: frame pump -/

/-- Claim C2, counterexample to the claim as stated: `handle_frame` passes
`Some(joypad_events)` — the cycle's full accumulated event list — to every
`gameboy.frame` call, not only the final one; with one accumulated event, the
first (non-final) invocation receives that event, not an empty or absent list. -/
theorem C2_counterexample :
    ¬ (∀ o ∈ (handle_frame sampleCore 0 [JoypadEvent.down JoypadInput.a]).trace.dropLast,
        o = none ∨ o = some []) := by
  decide

/-- Claim C2 (amended: every invocation — not only the first — receives the
cycle's accumulated event list): `handle_frame` invokes the core's frame advance
exactly `FRAMES_PER_CYCLE` times, passes `Some(joypad_events)` to every
invocation, clears the event list afterwards regardless of whether it was empty,
and renders the buffer returned by the final invocation. -/
theorem C2_frame_pump {σ β : Type} (frame : σ → Option (List JoypadEvent) → σ × β)
    (gb : σ) (events : List JoypadEvent) :
    (handle_frame frame gb events).trace.length = FRAMES_PER_CYCLE ∧
      (∀ o ∈ (handle_frame frame gb events).trace, o = some events) ∧
      (handle_frame frame gb events).events = [] ∧
      (handle_frame frame gb events).rendered =
        (frame (pumpState frame events (FRAMES_PER_CYCLE - 1) gb) (some events)).2 := by
  refine ⟨?_, ?_, rfl, ?_⟩
  · show ((pumpIter frame events (FRAMES_PER_CYCLE - 1) gb).2 ++ [some events]).length =
      FRAMES_PER_CYCLE
    rw [List.length_append, pumpIter_trace_length]
    rfl
  · intro o ho
    have ho' : o ∈ (pumpIter frame events (FRAMES_PER_CYCLE - 1) gb).2 ++ [some events] := ho
    rcases List.mem_append.mp ho' with h | h
    · exact pumpIter_trace_mem frame events _ gb o h
    · simpa using h
  · show (frame (pumpIter frame events (FRAMES_PER_CYCLE - 1) gb).1 (some events)).2 =
      (frame (pumpState frame events (FRAMES_PER_CYCLE - 1) gb) (some events)).2
    rw [pumpIter_fst]

/-- Witness instance of C2 at a concrete core and one accumulated event. -/
theorem C2_witness :
    (handle_frame sampleCore 0 [JoypadEvent.down JoypadInput.b]).trace.length =
        FRAMES_PER_CYCLE ∧
      (∀ o ∈ (handle_frame sampleCore 0 [JoypadEvent.down JoypadInput.b]).trace,
        o = some [JoypadEvent.down JoypadInput.b]) ∧
      (handle_frame sampleCore 0 [JoypadEvent.down JoypadInput.b]).events = [] ∧
      (handle_frame sampleCore 0 [JoypadEvent.down JoypadInput.b]).rendered =
        (sampleCore
          (pumpState sampleCore [JoypadEvent.down JoypadInput.b] (FRAMES_PER_CYCLE - 1) 0)
          (some [JoypadEvent.down JoypadInput.b])).2 :=
  C2_frame_pump sampleCore 0 [JoypadEvent.down JoypadInput.b]

/-! ## Claim theorems: pacer -/

/-- Claim C6 (confirmed): when the measured elapsed time is below the target
cycle duration the pacer sleeps exactly the difference, and otherwise it sleeps
zero — it proceeds immediately with no negative sleep and no catch-up. -/
theorem C6_pacer (frame_duration elapsed : Nat) :
    (elapsed < frame_duration →
        pacer_sleep frame_duration elapsed = frame_duration - elapsed) ∧
      (frame_duration ≤ elapsed → pacer_sleep frame_duration elapsed = 0) := by
  constructor
  · intro h
    rw [pacer_sleep, if_pos h]
  · intro h
    rw [pacer_sleep, if_neg (Nat.not_lt.mpr h)]

/-- Witness for C6 at the spec's scenario: 0 ms elapsed against a 33 ms target
sleeps the full 33 ms; 40 ms elapsed against the same target sleeps 0. -/
theorem C6_witness :
    pacer_sleep 33000000 0 = 33000000 ∧ pacer_sleep 33000000 40000000 = 0 :=
  ⟨by
    have h := (C6_pacer 33000000 0).1 (by decide)
    simpa using h,
    (C6_pacer 33000000 40000000).2 (by decide)⟩

/-! ## Claim theorems: main loop exits -/

/-- Claim C3: the code contradicts the claim.  On input-channel disconnection
the loop breaks with no teardown command at all and `cli` still returns `Ok`
(`result = true`): the terminal is left in raw mode, on the alternate screen,
with the cursor hidden.  Even on explicit quit, raw mode is never disabled
(`disable_raw_mode` is never called).  This theorem evaluates the embedded `cli`
at both failing inputs. -/
theorem C3_teardown :
    ((cli_run [([], true)]).exit = some LoopExit.disconnected ∧
        (cli_run [([], true)]).result = true ∧
        (applyCmds termInit (cli_run [([], true)]).termCmds).rawMode = true ∧
        (applyCmds termInit (cli_run [([], true)]).termCmds).alternateScreen = true ∧
        (applyCmds termInit (cli_run [([], true)]).termCmds).cursorHidden = true) ∧
      ((cli_run [(['q'], false)]).exit = some LoopExit.quit ∧
        (applyCmds termInit (cli_run [(['q'], false)]).termCmds).rawMode = true ∧
        TermCmd.disableRawMode ∉ (cli_run [(['q'], false)]).termCmds) := by
  decide

/-- Claim C8 (confirmed): when the quit code arrives mid-drain in some cycle
(after any number of non-exiting cycles), the whole loop stops there: the
teardown commands are executed exactly once in the whole run (the run's teardown
command list is exactly the one leave-alternate-screen/show-cursor pair), and the
quitting cycle derives no events, performs no frame pump and no render. -/
theorem C8_quit (prev : List Char) (pre post : List (List Char × Bool))
    (q : List Char) (d : Bool) (hq : 'q' ∈ q)
    (hpre : (runLoop prev pre).2 = none) :
    runLoop prev (pre ++ (q, d) :: post) =
        ([TermCmd.leaveAlternateScreen, TermCmd.showCursor], some LoopExit.quit) ∧
      (cliCycle (prevAfter prev pre) q d).events = [] ∧
      (cliCycle (prevAfter prev pre) q d).pumps = 0 ∧
      (cliCycle (prevAfter prev pre) q d).renders = 0 := by
  rw [runLoop_append _ pre prev hpre]
  rw [cliCycle_quit _ _ _ hq]
  refine ⟨?_, rfl, rfl, rfl⟩
  rw [runLoop, cliCycle_quit _ _ _ hq]

/-- Witness for C8 at a concrete script: one ordinary cycle, then a cycle whose
queue holds `'w'` followed by `'q'`, then a further scripted cycle that is never
reached. -/
theorem C8_witness :
    'q' ∈ (['w', 'q'] : List Char) ∧
      (runLoop [] [(([] : List Char), false)]).2 = none ∧
      (runLoop [] ([(([] : List Char), false)] ++ (['w', 'q'], false) ::
            [((['s'] : List Char), false)]) =
          ([TermCmd.leaveAlternateScreen, TermCmd.showCursor], some LoopExit.quit) ∧
        (cliCycle (prevAfter [] [(([] : List Char), false)]) ['w', 'q'] false).events = [] ∧
        (cliCycle (prevAfter [] [(([] : List Char), false)]) ['w', 'q'] false).pumps = 0 ∧
        (cliCycle (prevAfter [] [(([] : List Char), false)]) ['w', 'q'] false).renders = 0) :=
  ⟨by decide, by decide,
    C8_quit [] [(([] : List Char), false)] [((['s'] : List Char), false)]
      ['w', 'q'] false (by decide) (by decide)⟩

end TermEmu
